import Mathlib

/-!
Verification development for the KFCT PDF extraction pipeline
(`core/pdf_extractor.py`).  The pipeline turns raw table fragments
(ragged grids of cell text) into a cleaned food-composition dataset.

Modelling conventions:
* a dataframe cell is a `PyVal`: `na` models pandas `NaN` / Python `None`,
  `str` a Python string, `num` a numeric value (floats modelled by `ℚ`);
* a dataframe is a list of column labels plus a list of rows
  (rows rectangular in pandas; list operations pad with `na` defensively);
* pandas/stdlib behaviour used by the source is modelled directly:
  `str(nan) = "nan"`, `dropna(how='all')`, label-based column lookup where a
  missing label raises `KeyError` and a `.str` accessor on a duplicated label
  raises `AttributeError` (the lookup yields a `DataFrame`, which has no
  `.str`), `re.match(r'^[A-Z]?[0-9]{1,4}$', s)`, `Series.str.extract` of the
  pattern `(\d+\.?\d*)`, `Series.ffill`, `drop_duplicates(keep='first')`;
* fallible steps return `Except PyErr`; unhandled Python exceptions are
  modelled as `Except.error`.
-/

set_option maxRecDepth 100000

namespace KFCT

/-- A Python cell value: `na` is pandas `NaN` / Python `None`. -/
inductive PyVal where
  | na : PyVal
  | str : String → PyVal
  | num : ℚ → PyVal
deriving DecidableEq, Repr

/-- Is the cell missing (NaN/None)? -/
def PyVal.isNa : PyVal → Bool
  | .na => true
  | _ => false

/-- Python `str(x)` for a cell.  `str(nan) = "nan"`; floats print with a
trailing `.0` when integral (non-integral float formatting is approximated
by the rational printer; no claim depends on it). -/
def pyStr : PyVal → String
  | .na => "nan"
  | .str s => s
  | .num q => if q.den = 1 then toString q.num ++ ".0" else toString q

/-- One character-level replacement pass, modelling Python
`s.replace(a, b)` for single-character `a`, `b`. -/
def replChar (a b : Char) (l : List Char) : List Char :=
  l.map (fun c => if c = a then b else c)

/-- Drop trailing characters satisfying `p`. -/
def dropEndWhile (p : Char → Bool) (l : List Char) : List Char :=
  (l.reverse.dropWhile p).reverse

/-- Strip leading and trailing whitespace characters, modelling Python
`s.strip()`. -/
def stripChars (l : List Char) : List Char :=
  dropEndWhile Char.isWhitespace (l.dropWhile Char.isWhitespace)

/-- Python `s.strip()`. -/
def pyStrip (s : String) : String := String.mk (stripChars s.toList)

/-- The per-cell lambda of `clean_table`:
`str(x).replace('\n', ' ').replace('\r', ' ').strip()`. -/
def cleanStr (s : String) : String :=
  String.mk (stripChars (replChar '\r' ' ' (replChar '\n' ' ' s.toList)))

/-- The `applymap` body of `clean_table`: the replacement applies only when
`isinstance(x, str)`; `NaN` and numeric cells pass through unchanged. -/
def cleanCell : PyVal → PyVal
  | .str s => .str (cleanStr s)
  | v => v

/-- A dataframe: column labels plus rows of cells. -/
structure DF where
  cols : List String
  rows : List (List PyVal)
deriving DecidableEq, Repr

/-- Cell of a row at column position `j` (`na` when out of range;
pandas frames are rectangular so the default is never consulted there). -/
def cellAt (r : List PyVal) (j : Nat) : PyVal := r.getD j .na

/-- Is every cell of the row missing?  (`dropna(how='all', axis=0)`.) -/
def rowAllNa (r : List PyVal) : Bool := r.all (fun c => c.isNa)

/-- Column positions that survive `dropna(how='all', axis=1)`: those with at
least one non-missing cell among the surviving rows. -/
def keepIdxs (w : Nat) (rows : List (List PyVal)) : List Nat :=
  (List.range w).filter (fun j => rows.any (fun r => !(cellAt r j).isNa))

/-- Restrict a row to the given column positions. -/
def selectIdxs (ks : List Nat) (r : List PyVal) : List PyVal :=
  ks.map (fun j => cellAt r j)

/-- Restrict the label list to the given column positions. -/
def selectLbls (ks : List Nat) (cs : List String) : List String :=
  ks.map (fun j => cs.getD j "")

/-- `clean_table`: drop all-`NaN` rows, then all-`NaN` columns, then apply
the cell-cleaning lambda to every cell. -/
def clean_table (df : DF) : DF :=
  let r1 := df.rows.filter (fun r => !rowAllNa r)
  let ks := keepIdxs df.cols.length r1
  ⟨selectLbls ks df.cols, r1.map (fun r => (selectIdxs ks r).map cleanCell)⟩

/-- Is `n` a prefix of `h` (character lists)? -/
def hasPre : List Char → List Char → Bool
  | [], _ => true
  | _ :: _, [] => false
  | a :: as, b :: bs => a = b && hasPre as bs

/-- Does `n` occur as a contiguous substring of `h` (character lists)?
Models the Python `in` operator on strings. -/
def containsSubL (n : List Char) : List Char → Bool
  | [] => n.isEmpty
  | c :: t => hasPre n (c :: t) || containsSubL n t

/-- Python `n in h` for strings. -/
def containsSub (h n : String) : Bool := containsSubL n.toList h.toList

/-- Python `s.lower()` (character-list based so that it evaluates by
kernel reduction). -/
def pyLower (s : String) : String := String.mk (s.toList.map Char.toLower)

/-- Python `' '.join(ss)`. -/
def joinSpace : List String → String
  | [] => ""
  | [s] => s
  | s :: t => s ++ " " ++ joinSpace t

/-- `' '.join(str(v).lower() for v in row.values)` in `find_header_row`. -/
def rowJoined (r : List PyVal) : String :=
  joinSpace (r.map (fun v => pyLower (pyStr v)))

/-- The keyword test of `find_header_row`:
`'food' in row_str and 'protein' in row_str and 'energy' in row_str`. -/
def isHeaderRow (r : List PyVal) : Bool :=
  containsSub (rowJoined r) "food" && containsSub (rowJoined r) "protein" &&
    containsSub (rowJoined r) "energy"

/-- Scan of `find_header_row`, carrying the current row index. -/
def findHeaderRowAux : Nat → List (List PyVal) → Nat
  | _, [] => 0
  | i, r :: t => if isHeaderRow r then i else findHeaderRowAux (i + 1) t

/-- `find_header_row`: first row satisfying the keyword test, else row 0. -/
def find_header_row (rows : List (List PyVal)) : Nat := findHeaderRowAux 0 rows

/-- `1 ≤ len ≤ 4` and all characters are ASCII digits, the `[0-9]{1,4}$`
part of the food-code regex. -/
def digits1to4 (l : List Char) : Bool :=
  decide (1 ≤ l.length) && decide (l.length ≤ 4) && l.all Char.isDigit

/-- `re.match(r'^[A-Z]?[0-9]{1,4}$', s)` viewed as a Boolean test. -/
def isFoodCodeStr (s : String) : Bool :=
  match s.toList with
  | [] => false
  | c :: t => if c.isUpper then digits1to4 t else digits1to4 (c :: t)

/-- The food-code heuristic of `post_process_data` (line 174) applied to one
row: keep the first cell when `str(x).strip()` matches the code pattern,
else `None`. -/
def rowCode (r : List PyVal) : PyVal :=
  let x := cellAt r 0
  if isFoodCodeStr (pyStrip (pyStr x)) then x else .na

/-- Line 175: the name is the second cell when the row's code is non-null,
else the first cell. -/
def rowName (r : List PyVal) : PyVal :=
  if (rowCode r).isNa then cellAt r 0 else cellAt r 1

/-- `Series.ffill` with an explicit running value (`na` = nothing seen). -/
def ffillFrom (acc : PyVal) : List PyVal → List PyVal
  | [] => []
  | c :: t =>
    let v := if c.isNa then acc else c
    v :: ffillFrom v t

/-- `Series.ffill` (line 178): missing values inherit the nearest preceding
non-missing value of the whole column. -/
def ffillCol (l : List PyVal) : List PyVal := ffillFrom .na l

/-- Unhandled Python exceptions reachable in `post_process_data`. -/
inductive PyErr where
  | keyError : String → PyErr
  | attrError : PyErr
  | indexError : PyErr
deriving DecidableEq, Repr

deriving instance DecidableEq for Except

/-- Positions of a label among the column labels. -/
def labelIdxs (cs : List String) (l : String) : List Nat :=
  (List.range cs.length).filter (fun j => cs.getD j "" = l)

/-- Label-based single-column access as the source uses it with a `.str`
accessor or a scalar assignment: a missing label raises `KeyError`, a
duplicated label yields a `DataFrame`, whose missing `.str`/`.astype`
pipeline raises `AttributeError`. -/
def getColUnique (df : DF) (l : String) : Except PyErr Nat :=
  match labelIdxs df.cols l with
  | [] => .error (.keyError l)
  | [j] => .ok j
  | _ => .error .attrError

/-- `df.rename(columns={df.columns[0]: 'col1', df.columns[1]: 'col2'})`
(line 171): every occurrence of those two labels is renamed. -/
def renameFirstTwo (cs : List String) : List String :=
  let c0 := cs.getD 0 ""
  let c1 := cs.getD 1 ""
  cs.map (fun l => if l = c0 then "col1" else if l = c1 then "col2" else l)

/-- `df[lbl] = vals`: replace the column when the label exists (all
occurrences), else append a new column on the right.  Rows are realised at
the frame's width (pandas rows are always full width). -/
def setCol (df : DF) (l : String) (vals : List PyVal) : DF :=
  match labelIdxs df.cols l with
  | [] =>
    ⟨df.cols ++ [l],
     List.zipWith (fun r v => (List.range df.cols.length).map (cellAt r) ++ [v]) df.rows vals⟩
  | ks =>
    ⟨df.cols,
     List.zipWith
       (fun r v => (List.range df.cols.length).map
         (fun i => if ks.contains i then v else cellAt r i)) df.rows vals⟩

/-- The ordered substring dictionary of `standardize_columns` (the source's
`'iron'` entry sits on a garbled line; it is modelled by its evident
`'iron': 'iron_mg'` reading). -/
def columnMap : List (String × String) :=
  [("code", "food_code"), ("food", "food_name_english"), ("water", "water_g"),
   ("energy", "energy_kcal"), ("protein", "protein_g"), ("fat", "fat_g"),
   ("carbohydrate", "carbs_g"), ("fibre", "fibre_g"),
   ("ca", "calcium_mg"), ("calcium", "calcium_mg"),
   ("fe", "iron_mg"), ("iron", "iron_mg"),
   ("zn", "zinc_mg"), ("zinc", "zinc_mg"),
   ("vit a", "vit_a_rae_mcg"), ("retinol", "vit_a_rae_mcg"),
   ("thiamin", "thiamin_mg"), ("riboflavin", "riboflavin_mg"),
   ("niacin", "niacin_mg"), ("vit c", "vit_c_mg")]

/-- One column of the `standardize_columns` renaming loop: the first
dictionary key contained in the lowered header cell wins, else the column
becomes `unknown_<label>`. -/
def mapColName (cellText : String) (orig : String) : String :=
  match columnMap.find? (fun kv => containsSub cellText kv.1) with
  | some kv => kv.2
  | none => "unknown_" ++ orig

/-- `standardize_columns`: locate the header row, rename every column from
the header row's cell under it, and drop the header row and everything
above it.  `df.iloc[header_row]` on an empty frame raises `IndexError`.
(The source's `if header_row is None` guard is dead code: `find_header_row`
always returns an index.) -/
def standardize_columns (df : DF) : Except PyErr DF :=
  let h := find_header_row df.rows
  match df.rows.get? h with
  | none => .error .indexError
  | some hr =>
    .ok ⟨(List.range df.cols.length).map
           (fun j => mapColName (pyLower (pyStr (cellAt hr j))) (df.cols.getD j "")),
         df.rows.drop (h + 1)⟩

/-- Lines 170–181 of `post_process_data`: when the frame has more than one
column, rename the first two columns, build the `food_code` and
`food_name_english` columns, forward-fill the codes, and re-standardize the
columns; otherwise the frame passes through untouched. -/
def stageAssign (df : DF) : Except PyErr DF :=
  if df.cols.length > 1 then
    let d1 : DF := ⟨renameFirstTwo df.cols, df.rows⟩
    let codes0 := d1.rows.map rowCode
    let names := d1.rows.map rowName
    let d2 := setCol d1 "food_code" codes0
    let d3 := setCol d2 "food_name_english" names
    let d4 := setCol d3 "food_code" (ffillCol codes0)
    standardize_columns d4
  else
    .ok df

/-- `Series.str.contains('protein', case=False, na=False)` on one cell:
non-string cells give `False` via `na=False`. -/
def cellMentionsProtein : PyVal → Bool
  | .str s => containsSub (pyLower s) "protein"
  | _ => false

/-- Line 184: drop rows whose `protein_g` cell textually contains
"protein" (repeated header leakage). -/
def stageProtein (df : DF) : Except PyErr DF := do
  let j ← getColUnique df "protein_g"
  .ok ⟨df.cols, df.rows.filter (fun r => !cellMentionsProtein (cellAt r j))⟩

/-- The canonical nutrient columns (`nutrient_cols`, lines 187–191). -/
def nutrientCols : List String :=
  ["energy_kcal", "protein_g", "fat_g", "carbs_g", "fibre_g", "calcium_mg",
   "iron_mg", "zinc_mg", "vit_a_rae_mcg", "thiamin_mg", "riboflavin_mg",
   "niacin_mg", "vit_c_mg"]

/-- The `\d+` greedy run and optional `\.?\d*` tail of the extraction
pattern, starting at a digit. -/
def takeNumTok (l : List Char) : List Char :=
  let ds := l.takeWhile Char.isDigit
  match l.dropWhile Char.isDigit with
  | '.' :: r2 => ds ++ '.' :: r2.takeWhile Char.isDigit
  | _ => ds

/-- `Series.str.extract(r'(\d+\.?\d*)')` on one cell: the first (leftmost)
match of the pattern, or nothing. -/
def firstNumTok : List Char → Option (List Char)
  | [] => none
  | c :: t => if c.isDigit then some (takeNumTok (c :: t)) else firstNumTok t

/-- Numeric value of a digit run. -/
def digitsVal (l : List Char) : Nat :=
  l.foldl (fun a c => 10 * a + (c.toNat - '0'.toNat)) 0

/-- `pd.to_numeric` on an extracted token `digits[.digits]`. -/
def numTokVal (l : List Char) : ℚ :=
  let ip := l.takeWhile Char.isDigit
  match l.dropWhile Char.isDigit with
  | '.' :: fr => (digitsVal ip : ℚ) + (digitsVal fr : ℚ) / ((10 : ℚ) ^ fr.length)
  | _ => (digitsVal ip : ℚ)

/-- Lines 196–198 on one cell: `astype(str)`, extract the first numeric
token, convert to a number, and fill failures with `0`. -/
def normCell (v : PyVal) : PyVal :=
  match firstNumTok (pyStr v).toList with
  | some t => .num (numTokVal t)
  | none => .num 0

/-- Apply `normCell` to column `j` of every row (rows realised at the
frame's width). -/
def normColAt (j : Nat) (df : DF) : DF :=
  ⟨df.cols,
   df.rows.map (fun r => (List.range df.cols.length).map
     (fun i => if i = j then normCell (cellAt r i) else cellAt r i))⟩

/-- One iteration of the nutrient loop (lines 193–198): skip absent
columns; a duplicated label makes the `.str` pipeline raise. -/
def stageNutrOne (df : DF) (l : String) : Except PyErr DF :=
  match labelIdxs df.cols l with
  | [] => .ok df
  | [j] => .ok (normColAt j df)
  | _ => .error .attrError

/-- The whole nutrient loop over `nutrient_cols`. -/
def stageNutrients (df : DF) : Except PyErr DF :=
  nutrientCols.foldlM stageNutrOne df

/-- The category lookup table keyed by the leading letter of the food code
(lines 201–217). -/
def categoryMap : List (Char × String) :=
  [('A', "Cereals and their products"),
   ('B', "Starchy roots, tubers, and their products"),
   ('C', "Legumes, and their products"),
   ('D', "Nuts, seeds and their products"),
   ('E', "Vegetables and their products"),
   ('F', "Fruits and their products"),
   ('G', "Meat, poultry and their products"),
   ('H', "Fish, other aquatic animals and their products"),
   ('J', "Milk, milk products and eggs"),
   ('K', "Oils and fats"),
   ('L', "Beverages"),
   ('M', "Spices and condiments"),
   ('N', "Miscellaneous"),
   ('P', "Infant foods"),
   ('S', "Foods for special dietary use")]

/-- `Series.str[0]` on one cell: first character of a non-empty string,
else missing. -/
def firstCharCell : PyVal → Option Char
  | .str s => s.toList.head?
  | _ => none

/-- `.str[0].map({...}).fillna('Uncategorized')` on one cell. -/
def categoryOf (v : PyVal) : PyVal :=
  match firstCharCell v with
  | some c =>
    match categoryMap.find? (fun kv => kv.1 = c) with
    | some kv => .str kv.2
    | none => .str "Uncategorized"
  | none => .str "Uncategorized"

/-- Lines 201–217: build the `category` column from the `food_code`
column. -/
def stageCategory (df : DF) : Except PyErr DF := do
  let j ← getColUnique df "food_code"
  .ok (setCol df "category" (df.rows.map (fun r => categoryOf (cellAt r j))))

/-- Line 220, `dropna(subset=['food_name_english'])`: drop rows whose name
cell is missing (a missing label raises `KeyError`). -/
def dropnaName (df : DF) : Except PyErr DF :=
  match labelIdxs df.cols "food_name_english" with
  | [] => .error (.keyError "food_name_english")
  | ks => .ok ⟨df.cols, df.rows.filter (fun r => ks.all (fun j => !(cellAt r j).isNa))⟩

/-- `Series.str.len() > 2` on one cell: non-string cells compare as
`False`. -/
def nameLen2 : PyVal → Bool
  | .str s => decide (s.length > 2)
  | _ => false

/-- Line 221: keep rows whose name has length greater than 2. -/
def lenFilter (df : DF) : Except PyErr DF := do
  let j ← getColUnique df "food_name_english"
  .ok ⟨df.cols, df.rows.filter (fun r => nameLen2 (cellAt r j))⟩

/-- `drop_duplicates(keep='first')` with an explicit set of already-seen
keys: a row whose key was seen is dropped, otherwise kept and its key
recorded. -/
def dedupSeen {κ : Type} [DecidableEq κ] (k : List PyVal → κ) (seen : List κ) :
    List (List PyVal) → List (List PyVal)
  | [] => []
  | r :: t =>
    if seen.any (fun x => decide (x = k r)) then dedupSeen k seen t
    else r :: dedupSeen k (k r :: seen) t

/-- The dedup key of line 222: the cells under the `food_code` and
`food_name_english` labels. -/
def dedupKey (cks nks : List Nat) (r : List PyVal) : List PyVal × List PyVal :=
  (cks.map (cellAt r), nks.map (cellAt r))

/-- Line 222: `drop_duplicates(subset=['food_code', 'food_name_english'])`,
keeping the first occurrence. -/
def dedupStage (df : DF) : Except PyErr DF :=
  match labelIdxs df.cols "food_code", labelIdxs df.cols "food_name_english" with
  | [], _ => .error (.keyError "food_code")
  | _, [] => .error (.keyError "food_name_english")
  | cks, nks => .ok ⟨df.cols, dedupSeen (dedupKey cks nks) [] df.rows⟩

/-- `final_cols` (line 225). -/
def finalColsList : List String :=
  ["food_code", "food_name_english", "category"] ++ nutrientCols

/-- First position of a label (only consulted for present labels). -/
def firstLblIdx (cs : List String) (l : String) : Nat :=
  (labelIdxs cs l).headD 0

/-- Line 226: project onto the final columns that are present, in the
canonical order. -/
def projectFinal (df : DF) : DF :=
  let keep := finalColsList.filter (fun l => !(labelIdxs df.cols l).isEmpty)
  ⟨keep, df.rows.map (fun r => keep.map (fun l => cellAt r (firstLblIdx df.cols l)))⟩

/-- `post_process_data`: the whole post-processing chain on the
concatenated frame.  An unhandled pandas exception anywhere aborts the
run. -/
def post_process_data (df : DF) : Except PyErr DF := do
  let d1 ← stageAssign df
  let d2 ← stageProtein d1
  let d3 ← stageNutrients d2
  let d4 ← stageCategory d3
  let d5 ← dropnaName d4
  let d6 ← lenFilter d5
  let d7 ← dedupStage d6
  .ok (projectFinal d7)

/-- Union of column labels in order of first appearance (`pd.concat` with
the default `sort=False`). -/
def seenUnion (acc : List String) (cs : List String) : List String :=
  cs.foldl (fun a l => if a.contains l then a else a ++ [l]) acc

/-- Column labels of the concatenated frame. -/
def unionCols (dfs : List DF) : List String :=
  dfs.foldl (fun a d => seenUnion a d.cols) []

/-- Reindex one row onto the union labels, filling absent labels with
`NaN` (labels are unique within each extracted fragment). -/
def alignRow (cs : List String) (u : List String) (r : List PyVal) : List PyVal :=
  u.map (fun l =>
    match labelIdxs cs l with
    | [] => .na
    | j :: _ => cellAt r j)

/-- `pd.concat(dfs, ignore_index=True)`. -/
def concatDFs (dfs : List DF) : DF :=
  let u := unionCols dfs
  ⟨u, (dfs.map (fun d => d.rows.map (alignRow d.cols u))).flatten⟩

/-- `pd.DataFrame()`. -/
def emptyDF : DF := ⟨[], []⟩

/-- Fragments delivered by one extraction strategy: an extraction failure
is recovered as zero fragments (lines 43–45 and 60–62). -/
def stratFrags : Except Unit (List DF) → List DF
  | .ok ds => ds
  | .error _ => []

/-- `extract_and_clean_pdf`, modelled over its effective inputs: whether
the PDF path exists and the outcome of each extraction strategy.  The
result pairs the returned value (or the unhandled exception) with the list
of datasets written to disk by `to_csv`. -/
def extract_and_clean_pdf (pdfExists : Bool) (latticeRes streamRes : Except Unit (List DF)) :
    Except PyErr DF × List DF :=
  if pdfExists then
    let allDfs := stratFrags latticeRes ++ stratFrags streamRes
    if allDfs.isEmpty then (Except.ok emptyDF, [])
    else
      match post_process_data (concatDFs (allDfs.map clean_table)) with
      | .error e => (.error e, [])
      | .ok final => (.ok final, [final])
  else (Except.ok emptyDF, [])

/-! ### Concrete inputs used by counterexamples and witnesses -/

/-- A one-row fragment whose row carries the accepted code `A1`. -/
def cexFragA : DF := ⟨["0", "1"], [[.str "A1", .str "Maize"]]⟩

/-- A one-row fragment none of whose cells is an accepted code. -/
def cexFragB : DF := ⟨["0", "1"], [[.str "flour", .str "x"]]⟩

/-- A fragment with no header row and no cell mentioning "protein". -/
def cexHeaderless : DF := ⟨["0", "1", "2"], [[.str "A1", .str "Maize", .str "360"]]⟩

/-- A fragment whose header row maps exactly one column to each of
`food_code`, `food_name_english`, `energy_kcal` and `protein_g`, and whose
data row has a missing cell under the column labelled `Code`. -/
def cexMixedDF : DF :=
  ⟨["0", "1", "2", "3", "4", "5"],
   [[.str "B2", .str "xyz", .str "Code", .str "Food name", .str "Energy", .str "Protein"],
    [.str "", .str "a", .na, .str "Maize flour", .str "360", .str "8"]]⟩

/-- A fragment with one `None` cell in a surviving row and column. -/
def cexNoneDF : DF := ⟨["0", "1"], [[.str "a", .na], [.str "b", .str "c"]]⟩

/-! ### Forward-fill lemmas -/

/-- The running value of a forward fill: the last non-missing value of the
list, or the seed when there is none. -/
def lastNonNa (acc : PyVal) (l : List PyVal) : PyVal :=
  l.foldl (fun a c => if c.isNa then a else c) acc

theorem ffillFrom_getD (l : List PyVal) :
    ∀ (acc : PyVal) (i : Nat), i < l.length →
      (ffillFrom acc l).getD i .na = lastNonNa acc (l.take (i + 1)) := by
  induction l with
  | nil => intro acc i hi; simp at hi
  | cons c t ih =>
    intro acc i hi
    cases i with
    | zero => simp [ffillFrom, lastNonNa]
    | succ n =>
      have hn : n < t.length := by simpa using hi
      simpa [ffillFrom, lastNonNa, List.foldl_cons] using ih (if c.isNa then acc else c) n hn

theorem lastNonNa_append_na (acc : PyVal) (l : List PyVal) (c : PyVal)
    (hc : c = PyVal.na) : lastNonNa acc (l ++ [c]) = lastNonNa acc l := by
  subst hc; simp [lastNonNa, PyVal.isNa]

theorem getD_eq_of_getElem? {α : Type} {l : List α} {i : Nat} {v d : α}
    (hv : l[i]? = some v) : l.getD i d = v := by
  rw [List.getD_eq_getElem?_getD, hv]; rfl

theorem getD_mem_of_lt {α : Type} (l : List α) (d : α) (i : Nat)
    (hi : i < l.length) : l.getD i d ∈ l := by
  rw [getD_eq_of_getElem? (List.getElem?_eq_getElem hi)]
  exact List.getElem_mem hi

/-- C1, amended part.  For every assembled row whose code cell is not
accepted as a FoodCode, the forward-filled `food_code` column of
`post_process_data` (built by `stageAssign` as
`ffillCol (rows.map rowCode)`) holds the nearest preceding accepted
FoodCode of the whole concatenated row sequence — fragment boundaries are
not respected, and `na` results when no accepted code precedes. -/
theorem C1_forward_fill_concatenated (rows : List (List PyVal)) (i : Nat)
    (hi : i < rows.length) (hna : rowCode (rows.getD i []) = PyVal.na) :
    (ffillCol (rows.map rowCode)).getD i PyVal.na =
      lastNonNa PyVal.na ((rows.take i).map rowCode) := by
  have hmi : i < (rows.map rowCode).length := by simpa using hi
  have h1 := ffillFrom_getD (rows.map rowCode) PyVal.na i hmi
  have hv : rows[i]? = some rows[i] := List.getElem?_eq_getElem hi
  have hgd : rows.getD i [] = rows[i] := getD_eq_of_getElem? hv
  have htake : (rows.map rowCode).take (i + 1) =
      (rows.take i).map rowCode ++ [rowCode (rows.getD i [])] := by
    rw [List.take_succ, ← List.map_take, hgd]
    simp [List.getElem?_map, hv]
  rw [ffillCol, h1, htake, lastNonNa_append_na _ _ _ hna]

/-- C1 witness: a row with no accepted code in the second fragment of a
two-fragment concatenation takes the nearest preceding accepted code,
which lives in the first fragment. -/
theorem C1_forward_fill_concatenated_witness :
    (ffillCol (((cexFragA.rows ++ cexFragB.rows)).map rowCode)).getD 1 PyVal.na =
      lastNonNa PyVal.na (((cexFragA.rows ++ cexFragB.rows).take 1).map rowCode) ∧
    (ffillCol (((cexFragA.rows ++ cexFragB.rows)).map rowCode)).getD 1 PyVal.na =
      PyVal.str "A1" := by
  constructor
  · exact C1_forward_fill_concatenated (cexFragA.rows ++ cexFragB.rows) 1
      (by decide) (by decide)
  · decide

/-- C1 counterexample: the claim says a code seen in one fragment is never
inherited by a row of a different fragment; but the pipeline forward-fills
the concatenated frame, so the codeless row of `cexFragB` inherits the
code `A1` seen only in `cexFragA`. -/
theorem C1_cross_fragment_inheritance :
    cexFragB.rows.all (fun r => (rowCode r).isNa) = true ∧
    ffillCol ((concatDFs [clean_table cexFragA, clean_table cexFragB]).rows.map rowCode) =
      [PyVal.str "A1", PyVal.str "A1"] := by
  constructor
  · decide
  · decide

/-! ### HeaderLocator lemmas (C6) -/

theorem findHeaderRowAux_eq_of_first (l : List (List PyVal)) :
    ∀ (k i : Nat), i < l.length →
      (∀ j, j < i → isHeaderRow (l.getD j []) = false) →
      isHeaderRow (l.getD i []) = true →
      findHeaderRowAux k l = k + i := by
  induction l with
  | nil => intro k i hi; simp at hi
  | cons r t ih =>
    intro k i hi hbefore hat
    cases i with
    | zero =>
      have : isHeaderRow r = true := by simpa using hat
      simp [findHeaderRowAux, this]
    | succ n =>
      have h0 : isHeaderRow r = false := by simpa using hbefore 0 (Nat.succ_pos n)
      have hn : n < t.length := by simpa using hi
      have hb : ∀ j, j < n → isHeaderRow (t.getD j []) = false := by
        intro j hj
        simpa using hbefore (j + 1) (Nat.succ_lt_succ hj)
      have ha : isHeaderRow (t.getD n []) = true := by simpa using hat
      have := ih (k + 1) n hn hb ha
      simp [findHeaderRowAux, h0, this]
      omega

theorem findHeaderRowAux_eq_zero_of_none (l : List (List PyVal)) :
    ∀ k : Nat, (∀ r ∈ l, isHeaderRow r = false) → findHeaderRowAux k l = 0 := by
  induction l with
  | nil => intro k _; rfl
  | cons r t ih =>
    intro k h
    have h0 : isHeaderRow r = false := h r (List.mem_cons_self r t)
    have := ih (k + 1) (fun x hx => h x (List.mem_cons_of_mem r hx))
    simp [findHeaderRowAux, h0, this]

/-- C6.  `find_header_row` is a deterministic total function: it returns
the index of the first row whose lowered, space-joined cells
simultaneously contain "food", "protein" and "energy" (the `isHeaderRow`
test), and returns 0 when no row passes the test. -/
theorem C6_header_locator :
    (∀ (rows : List (List PyVal)) (i : Nat), i < rows.length →
      ((List.range i).all (fun j => !isHeaderRow (rows.getD j []))) = true →
      isHeaderRow (rows.getD i []) = true →
      find_header_row rows = i) ∧
    (∀ rows : List (List PyVal), rows.all (fun r => !isHeaderRow r) = true →
      find_header_row rows = 0) := by
  constructor
  · intro rows i hi hb ha
    have hb' : ∀ j, j < i → isHeaderRow (rows.getD j []) = false := by
      intro j hj
      have := List.all_eq_true.mp hb j (List.mem_range.mpr hj)
      simpa using this
    simpa using findHeaderRowAux_eq_of_first rows 0 i hi hb' ha
  · intro rows h
    have h' : ∀ r ∈ rows, isHeaderRow r = false := by
      intro r hr
      have := List.all_eq_true.mp h r hr
      simpa using this
    exact findHeaderRowAux_eq_zero_of_none rows 0 h'

/-- C6 witness: a fragment whose row 2 is
`["Food Code", "Food", "Energy", "Protein"]` and whose other rows lack the
anchors yields index 2; an anchor-free fragment yields 0. -/
theorem C6_header_locator_witness :
    find_header_row
      [[PyVal.str "x", PyVal.str "y"], [PyVal.str "a", PyVal.str "b"],
       [PyVal.str "Food Code", PyVal.str "Food", PyVal.str "Energy", PyVal.str "Protein"]] = 2 ∧
    find_header_row cexFragB.rows = 0 := by
  constructor
  · exact C6_header_locator.1 _ 2 (by decide) (by decide) (by decide)
  · exact C6_header_locator.2 _ (by decide)

/-! ### FoodCode pattern (C7) -/

/-- The FoodCode pattern in the words of the spec: an optional single
uppercase letter followed by 1 to 4 digits, consuming the whole string. -/
def specFoodCodePattern (s : String) : Prop :=
  ∃ ds : List Char, (∀ d ∈ ds, d.isDigit = true) ∧ 1 ≤ ds.length ∧ ds.length ≤ 4 ∧
    (s.toList = ds ∨ ∃ c : Char, c.isUpper = true ∧ s.toList = c :: ds)

theorem upper_not_digit (c : Char) (h1 : c.isUpper = true) : c.isDigit = false := by
  simp only [Char.isUpper, ge_iff_le, Bool.and_eq_true, decide_eq_true_eq] at h1
  simp only [Char.isDigit, ge_iff_le, Bool.and_eq_false_iff, decide_eq_false_iff_not]
  right
  intro h2
  obtain ⟨ha, _⟩ := h1
  rw [UInt32.le_def, BitVec.le_def] at ha h2
  have e1 : (UInt32.toBitVec 65).toNat = 65 := rfl
  have e2 : (UInt32.toBitVec 57).toNat = 57 := rfl
  rw [e1] at ha
  rw [e2] at h2
  omega

theorem digits1to4_iff (l : List Char) :
    digits1to4 l = true ↔ ((∀ d ∈ l, d.isDigit = true) ∧ 1 ≤ l.length ∧ l.length ≤ 4) := by
  simp only [digits1to4, Bool.and_eq_true, decide_eq_true_eq, List.all_eq_true]
  tauto

/-- C7.  A trimmed cell string is accepted as a FoodCode iff it consists
of an optional single uppercase letter followed by 1 to 4 digits; the
listed examples behave as the spec states; a rejected first cell leaves
the row's code null. -/
theorem C7_food_code_pattern :
    (∀ s : String, isFoodCodeStr s = true ↔ specFoodCodePattern s) ∧
    isFoodCodeStr "A12" = true ∧ isFoodCodeStr "1034" = true ∧
    isFoodCodeStr "B7" = true ∧ isFoodCodeStr "Ugali" = false ∧
    isFoodCodeStr "12AB" = false ∧ isFoodCodeStr "" = false ∧
    (∀ (v : PyVal) (rest : List PyVal),
      isFoodCodeStr (pyStrip (pyStr v)) = false → rowCode (v :: rest) = PyVal.na) := by
  refine ⟨?_, by decide, by decide, by decide, by decide, by decide, by decide, ?_⟩
  · intro s
    unfold isFoodCodeStr specFoodCodePattern
    cases hs : s.toList with
    | nil =>
      simp only [hs]
      constructor
      · intro h; exact absurd h (by decide)
      · rintro ⟨ds, _, hlen, _, h | ⟨c, _, h⟩⟩
        · rw [← h] at hlen; simp at hlen
        · exact absurd h (by simp)
    | cons c t =>
      simp only [hs]
      by_cases hu : c.isUpper = true
      · rw [if_pos hu, digits1to4_iff]
        constructor
        · rintro ⟨hd, h1, h4⟩
          exact ⟨t, hd, h1, h4, Or.inr ⟨c, hu, rfl⟩⟩
        · rintro ⟨ds, hd, h1, h4, h | ⟨c2, hc2, h⟩⟩
          · have hcd : c.isDigit = true := hd c (by rw [← h]; exact List.mem_cons_self c t)
            rw [upper_not_digit c hu] at hcd
            exact absurd hcd (by decide)
          · obtain ⟨he1, he2⟩ := List.cons_eq_cons.mp h
            rw [he2]
            exact ⟨hd, h1, h4⟩
      · rw [if_neg hu, digits1to4_iff]
        constructor
        · rintro ⟨hd, h1, h4⟩
          exact ⟨c :: t, hd, h1, h4, Or.inl rfl⟩
        · rintro ⟨ds, hd, h1, h4, h | ⟨c2, hc2, h⟩⟩
          · subst h
            exact ⟨hd, h1, h4⟩
          · obtain ⟨he1, he2⟩ := List.cons_eq_cons.mp h
            rw [← he1] at hc2
            exact absurd hc2 hu
  · intro v rest h
    simp [rowCode, cellAt, h]

/-- C7 witness: the iff applied at "A12", and a rejected first cell
("Ugali") yielding a null row code. -/
theorem C7_food_code_pattern_witness :
    specFoodCodePattern "A12" ∧ rowCode [PyVal.str "Ugali", PyVal.str "x"] = PyVal.na := by
  constructor
  · exact (C7_food_code_pattern.1 "A12").mp (by decide)
  · exact C7_food_code_pattern.2.2.2.2.2.2.2 (PyVal.str "Ugali") [PyVal.str "x"] (by decide)

/-! ### C3: header fallback is not always recoverable -/

/-- C3 (code bug).  On a fragment with no row passing the keyword test,
`find_header_row` does fall back to row 0, but post-processing then dies:
the row-0 fallback maps no column to `protein_g`, the unguarded
`df['protein_g']` lookup of line 184 raises `KeyError`, and the exception
propagates uncaught out of `extract_and_clean_pdf` — a failure mode beyond
SourceUnavailable and NoFragmentsExtracted. -/
theorem C3_header_fallback_fatal :
    cexHeaderless.rows.all (fun r => !isHeaderRow r) = true ∧
    find_header_row cexHeaderless.rows = 0 ∧
    post_process_data cexHeaderless = Except.error (PyErr.keyError "protein_g") ∧
    extract_and_clean_pdf true (Except.ok []) (Except.ok [cexHeaderless]) =
      (Except.error (PyErr.keyError "protein_g"), []) := by
  refine ⟨by decide, by decide, by decide, by decide⟩

/-! ### C5: write-once output -/

/-- C5.  The output file is written at most once per run; when both
strategies yield zero fragments the pipeline returns an empty frame and
writes nothing; and anything written is exactly the frame produced by the
completed `post_process_data` (deduplication and projection included) —
there is no partial-success write. -/
theorem C5_write_once (pe : Bool) (latticeRes streamRes : Except Unit (List DF)) :
    (extract_and_clean_pdf pe latticeRes streamRes).2.length ≤ 1 ∧
    (stratFrags latticeRes ++ stratFrags streamRes = [] →
      extract_and_clean_pdf pe latticeRes streamRes = (Except.ok emptyDF, [])) ∧
    (∀ d ∈ (extract_and_clean_pdf pe latticeRes streamRes).2,
      (extract_and_clean_pdf pe latticeRes streamRes).1 = Except.ok d ∧
      post_process_data
        (concatDFs ((stratFrags latticeRes ++ stratFrags streamRes).map clean_table)) =
        Except.ok d) := by
  cases pe with
  | false => simp [extract_and_clean_pdf]
  | true =>
    by_cases he : (stratFrags latticeRes ++ stratFrags streamRes).isEmpty = true
    · have hrun : extract_and_clean_pdf true latticeRes streamRes = (Except.ok emptyDF, []) := by
        unfold extract_and_clean_pdf
        rw [if_pos rfl, if_pos he]
      rw [hrun]
      exact ⟨by simp, fun _ => rfl, by simp⟩
    · cases hp : post_process_data
        (concatDFs ((stratFrags latticeRes ++ stratFrags streamRes).map clean_table)) with
      | error e =>
        have hrun : extract_and_clean_pdf true latticeRes streamRes = (Except.error e, []) := by
          unfold extract_and_clean_pdf
          rw [if_pos rfl, if_neg he, hp]
        rw [hrun]
        refine ⟨by simp, ?_, by simp⟩
        intro hemp
        rw [hemp] at he
        simp at he
      | ok final =>
        have hrun : extract_and_clean_pdf true latticeRes streamRes = (Except.ok final, [final]) := by
          unfold extract_and_clean_pdf
          rw [if_pos rfl, if_neg he, hp]
        rw [hrun]
        refine ⟨by simp, ?_, ?_⟩
        · intro hemp
          rw [hemp] at he
          simp at he
        · intro d hd
          have hdf : d = final := by simpa using hd
          rw [hdf]
          constructor
          · rfl
          · rfl

/-- C5 witness: with both strategies delivering zero fragments the run
returns an empty frame and writes no file. -/
theorem C5_write_once_witness :
    extract_and_clean_pdf true (Except.ok []) (Except.ok []) = (Except.ok emptyDF, []) :=
  (C5_write_once true (Except.ok []) (Except.ok [])).2.1 rfl

/-! ### C9: None cells pass through cleaning -/

/-- C9 counterexample: cleaning a fragment with a `None` cell leaves the
cell as `None` in the output, not as the empty string, contradicting the
claim that each such cell appears in the output as an empty string. -/
theorem C9_none_cell_not_empty_string :
    clean_table cexNoneDF = cexNoneDF ∧
    cellAt ((clean_table cexNoneDF).rows.getD 0 []) 1 = PyVal.na ∧
    PyVal.na ≠ PyVal.str "" := by
  refine ⟨by decide, by decide, by decide⟩

/-- C9, amended.  Cleaning has no error conditions (it is a total
function), but `None` cells are not converted to empty strings: the
cell-cleaning lambda leaves `None` unchanged, and a `None` cell lying in a
surviving row and column reappears in the cleaned output as `None`. -/
theorem C9_none_cells_preserved (df : DF) (i j : Nat)
    (hi : i < df.rows.length)
    (hrow : rowAllNa (df.rows.getD i []) = false)
    (hcol : j ∈ keepIdxs df.cols.length (df.rows.filter (fun r => !rowAllNa r)))
    (hcell : cellAt (df.rows.getD i []) j = PyVal.na) :
    cleanCell PyVal.na = PyVal.na ∧ ∃ r ∈ (clean_table df).rows, PyVal.na ∈ r := by
  refine ⟨rfl, ?_⟩
  have hgm : df.rows.getD i [] ∈ df.rows := getD_mem_of_lt df.rows [] i hi
  have hmf : df.rows.getD i [] ∈ df.rows.filter (fun r => !rowAllNa r) := by
    rw [List.mem_filter]
    refine ⟨hgm, ?_⟩
    rw [hrow]
    rfl
  refine ⟨(selectIdxs (keepIdxs df.cols.length
    (df.rows.filter (fun r => !rowAllNa r))) (df.rows.getD i [])).map cleanCell, ?_, ?_⟩
  · simp only [clean_table, List.mem_map]
    exact ⟨df.rows.getD i [], hmf, rfl⟩
  · rw [List.mem_map]
    refine ⟨PyVal.na, ?_, rfl⟩
    rw [selectIdxs, List.mem_map]
    exact ⟨j, hcol, hcell⟩

/-- C9 witness: the amended statement at the concrete fragment with a
`None` cell at row 0, column 1. -/
theorem C9_none_cells_preserved_witness :
    cleanCell PyVal.na = PyVal.na ∧ ∃ r ∈ (clean_table cexNoneDF).rows, PyVal.na ∈ r :=
  C9_none_cells_preserved cexNoneDF 0 1 (by decide) (by decide) (by decide) (by decide)

/-! ### C10: numeric extraction stops at the first non-pattern character -/

/-- C10.  The numeric scan keeps only the digits up to the first character
outside the `digits[.digits]` pattern: the comma-grouped cell "1,200" is
stored as the value 1, not 1200. -/
theorem C10_comma_grouped_number :
    firstNumTok ("1,200".toList) = some ['1'] ∧
    numTokVal ['1'] = 1 ∧
    normCell (PyVal.str "1,200") = PyVal.num 1 ∧
    (1 : ℚ) ≠ 1200 := by
  refine ⟨by decide, by decide, by decide, by decide⟩

/-! ### C8: FragmentCleaner is idempotent — string-level lemmas -/

theorem dropWhile_dropWhile (p : Char → Bool) (l : List Char) :
    (l.dropWhile p).dropWhile p = l.dropWhile p := by
  induction l with
  | nil => rfl
  | cons c t ih =>
    by_cases h : p c = true
    · simp [List.dropWhile_cons, h, ih]
    · simp [List.dropWhile_cons, h]

theorem dropWhile_eq_self_of_prefix (p : Char → Bool) (x y : List Char)
    (hx : x.dropWhile p = x) (hyx : y <+: x) : y.dropWhile p = y := by
  cases y with
  | nil => rfl
  | cons c t =>
    cases x with
    | nil =>
      obtain ⟨r, hr⟩ := hyx
      exact absurd hr (by simp)
    | cons d u =>
      have hcd : c = d := by
        obtain ⟨r, hr⟩ := hyx
        have := congrArg (fun z => z.headD c) hr
        simpa using this
      have hpd : p d = false := by
        cases hq : p d with
        | false => rfl
        | true =>
          rw [List.dropWhile_cons, if_pos hq] at hx
          have hlen := congrArg List.length hx
          have hle : (u.dropWhile p).length ≤ u.length := (List.dropWhile_suffix p).length_le
          simp at hlen
          omega
      rw [List.dropWhile_cons, hcd, hpd]
      simp

theorem stripChars_preOf_dropWhile (l : List Char) :
    stripChars l <+: l.dropWhile Char.isWhitespace := by
  have h : ((l.dropWhile Char.isWhitespace).reverse).dropWhile Char.isWhitespace <:+
      ((l.dropWhile Char.isWhitespace).reverse) := List.dropWhile_suffix Char.isWhitespace
  have h2 := h.reverse
  simpa [stripChars, dropEndWhile] using h2

theorem dropWhile_stripChars (l : List Char) :
    (stripChars l).dropWhile Char.isWhitespace = stripChars l :=
  dropWhile_eq_self_of_prefix Char.isWhitespace (l.dropWhile Char.isWhitespace)
    (stripChars l) (dropWhile_dropWhile Char.isWhitespace l) (stripChars_preOf_dropWhile l)

theorem reverse_stripChars_eq (l : List Char) :
    (stripChars l).reverse =
      ((l.dropWhile Char.isWhitespace).reverse).dropWhile Char.isWhitespace := by
  simp [stripChars, dropEndWhile]

theorem stripChars_idem (l : List Char) : stripChars (stripChars l) = stripChars l := by
  show dropEndWhile Char.isWhitespace
    ((stripChars l).dropWhile Char.isWhitespace) = stripChars l
  rw [dropWhile_stripChars]
  show ((stripChars l).reverse.dropWhile Char.isWhitespace).reverse = stripChars l
  rw [reverse_stripChars_eq l, dropWhile_dropWhile]
  rfl

theorem mem_stripChars {c : Char} {l : List Char} (h : c ∈ stripChars l) : c ∈ l := by
  have h1 : stripChars l <+: l.dropWhile Char.isWhitespace := stripChars_preOf_dropWhile l
  have h2 : l.dropWhile Char.isWhitespace <:+ l := List.dropWhile_suffix Char.isWhitespace
  exact h2.sublist.mem (h1.sublist.mem h)

theorem replChar_eq_self (a b : Char) :
    ∀ l : List Char, (∀ c ∈ l, c ≠ a) → replChar a b l = l := by
  intro l h
  induction l with
  | nil => rfl
  | cons c t ih =>
    have hc : c ≠ a := h c (List.mem_cons_self c t)
    have ht := ih (fun x hx => h x (List.mem_cons_of_mem c hx))
    show (if c = a then b else c) :: replChar a b t = c :: t
    rw [if_neg hc, ht]

theorem mem_replChar_ne (a b : Char) (hab : b ≠ a) (l : List Char) :
    ∀ c ∈ replChar a b l, c ≠ a := by
  intro c hc
  rw [replChar, List.mem_map] at hc
  obtain ⟨x, hx, hfx⟩ := hc
  by_cases hxa : x = a
  · rw [if_pos hxa] at hfx
    rw [← hfx]
    exact hab
  · rw [if_neg hxa] at hfx
    rw [← hfx]
    exact hxa

theorem cleanStr_chars (s : String) :
    ∀ c ∈ stripChars (replChar '\r' ' ' (replChar '\n' ' ' s.toList)),
      c ≠ '\n' ∧ c ≠ '\r' := by
  intro c hc
  have hc2 : c ∈ replChar '\r' ' ' (replChar '\n' ' ' s.toList) := mem_stripChars hc
  constructor
  · rw [replChar, List.mem_map] at hc2
    obtain ⟨x, hx, hfx⟩ := hc2
    by_cases hxr : x = '\r'
    · rw [if_pos hxr] at hfx
      rw [← hfx]
      decide
    · rw [if_neg hxr] at hfx
      rw [← hfx]
      exact mem_replChar_ne '\n' ' ' (by decide) s.toList x hx
  · exact mem_replChar_ne '\r' ' ' (by decide) _ c hc2

theorem cleanStr_idem (s : String) : cleanStr (cleanStr s) = cleanStr s := by
  show String.mk (stripChars (replChar '\r' ' ' (replChar '\n' ' '
    (stripChars (replChar '\r' ' ' (replChar '\n' ' ' s.toList)))))) = cleanStr s
  rw [replChar_eq_self '\n' ' ' _ (fun c hc => (cleanStr_chars s c hc).1)]
  rw [replChar_eq_self '\r' ' ' _ (fun c hc => (cleanStr_chars s c hc).2)]
  rw [stripChars_idem]
  rfl

theorem cleanCell_idem (v : PyVal) : cleanCell (cleanCell v) = cleanCell v := by
  cases v with
  | na => rfl
  | num q => rfl
  | str s =>
    show PyVal.str (cleanStr (cleanStr s)) = PyVal.str (cleanStr s)
    rw [cleanStr_idem]

theorem isNa_cleanCell (v : PyVal) : (cleanCell v).isNa = v.isNa := by
  cases v <;> rfl

/-! ### C8: table-level lemmas -/

theorem mem_keepIdxs (w : Nat) (rows : List (List PyVal)) (j : Nat) :
    j ∈ keepIdxs w rows ↔
      (j < w ∧ rows.any (fun r => !(cellAt r j).isNa) = true) := by
  simp [keepIdxs, List.mem_filter, List.mem_range]

theorem getD_map_range {α : Type} (l : List α) (d : α) :
    (List.range l.length).map (fun j => l.getD j d) = l := by
  induction l with
  | nil => rfl
  | cons c t ih =>
    rw [List.length_cons, List.range_succ_eq_map, List.map_cons, List.map_map]
    simp only [List.getD_cons_zero, Function.comp_def, List.getD_cons_succ]
    rw [ih]

theorem cellAt_ks_map (f : Nat → PyVal) (ks : List Nat) (j : Nat) (h : j < ks.length) :
    cellAt (ks.map f) j = f ks[j] := by
  unfold cellAt
  rw [List.getD_eq_getElem?_getD, List.getElem?_map, List.getElem?_eq_getElem h]
  rfl

/-- A frame already in the image of `clean_table` is a fixed point: no
all-`NaN` rows, no all-`NaN` columns, rectangular, all cells clean. -/
theorem clean_table_fixed (e : DF)
    (h1 : ∀ r ∈ e.rows, r.length = e.cols.length)
    (h2 : ∀ r ∈ e.rows, rowAllNa r = false)
    (h3 : ∀ j, j < e.cols.length → e.rows.any (fun r => !(cellAt r j).isNa) = true)
    (h4 : ∀ r ∈ e.rows, ∀ c ∈ r, cleanCell c = c) :
    clean_table e = e := by
  obtain ⟨cols, rows⟩ := e
  simp only at h1 h2 h3 h4
  have hfilter : rows.filter (fun r => !rowAllNa r) = rows := by
    rw [List.filter_eq_self]
    intro r hr
    rw [h2 r hr]
    rfl
  have hks : keepIdxs cols.length rows = List.range cols.length := by
    unfold keepIdxs
    rw [List.filter_eq_self]
    intro j hj
    exact h3 j (List.mem_range.mp hj)
  show DF.mk
    (selectLbls (keepIdxs cols.length (rows.filter (fun r => !rowAllNa r))) cols)
    ((rows.filter (fun r => !rowAllNa r)).map
      (fun r => (selectIdxs (keepIdxs cols.length
        (rows.filter (fun r => !rowAllNa r))) r).map cleanCell)) = DF.mk cols rows
  rw [hfilter, hks]
  have hlbl : selectLbls (List.range cols.length) cols = cols := by
    unfold selectLbls
    exact getD_map_range cols ""
  have hrows : rows.map (fun r => (selectIdxs (List.range cols.length) r).map cleanCell)
      = rows := by
    have hpt : ∀ r ∈ rows, (selectIdxs (List.range cols.length) r).map cleanCell = r := by
      intro r hr
      have hsel : selectIdxs (List.range cols.length) r = r := by
        unfold selectIdxs cellAt
        rw [← h1 r hr]
        exact getD_map_range r PyVal.na
      rw [hsel]
      have hid : ∀ c ∈ r, cleanCell c = c := h4 r hr
      rw [List.map_congr_left hid, List.map_id']
    rw [List.map_congr_left hpt, List.map_id']
  rw [hlbl, hrows]

/-- The output of `clean_table` on a rectangular frame satisfies the
fixed-point conditions. -/
theorem clean_table_output_rect (df : DF)
    (hrect : ∀ r ∈ df.rows, r.length = df.cols.length) :
    (∀ r ∈ (clean_table df).rows, r.length = (clean_table df).cols.length) ∧
    (∀ r ∈ (clean_table df).rows, rowAllNa r = false) ∧
    (∀ j, j < (clean_table df).cols.length →
      (clean_table df).rows.any (fun r => !(cellAt r j).isNa) = true) ∧
    (∀ r ∈ (clean_table df).rows, ∀ c ∈ r, cleanCell c = c) := by
  obtain ⟨cols, rows⟩ := df
  simp only at hrect
  have hshape : clean_table (DF.mk cols rows) = DF.mk
      (selectLbls (keepIdxs cols.length (rows.filter (fun r => !rowAllNa r))) cols)
      ((rows.filter (fun r => !rowAllNa r)).map
        (fun r => (selectIdxs (keepIdxs cols.length
          (rows.filter (fun r => !rowAllNa r))) r).map cleanCell)) := rfl
  rw [hshape]
  simp only
  refine ⟨?_, ?_, ?_, ?_⟩
  · -- rectangular: image rows have length = number of kept columns
    intro r hr
    rw [List.mem_map] at hr
    obtain ⟨r0, _, hr0⟩ := hr
    rw [← hr0]
    simp [selectIdxs, selectLbls]
  · -- no all-NaN row survives cleaning
    intro r hr
    rw [List.mem_map] at hr
    obtain ⟨r0, hr0m, hr0⟩ := hr
    have hr0f := List.mem_filter.mp hr0m
    have hr0na : rowAllNa r0 = false := by
      have := hr0f.2
      cases hq : rowAllNa r0 with
      | false => rfl
      | true => rw [hq] at this; exact absurd this (by decide)
    -- r0 has a non-NaN cell at some index below the width
    have hex : ∃ c ∈ r0, c.isNa = false := by
      have := hr0na
      unfold rowAllNa at this
      rcases List.all_eq_false.mp this with ⟨c, hcm, hcn⟩
      exact ⟨c, hcm, by revert hcn; cases c.isNa <;> simp⟩
    obtain ⟨c, hcm, hcn⟩ := hex
    obtain ⟨jc, hjc, hjcv⟩ := List.mem_iff_getElem.mp hcm
    have hjcw : jc < cols.length := by
      rw [← hrect r0 hr0f.1]
      exact hjc
    have hcell : cellAt r0 jc = c := by
      unfold cellAt
      rw [List.getD_eq_getElem?_getD, List.getElem?_eq_getElem hjc, hjcv]
      rfl
    have hjin : jc ∈ keepIdxs cols.length (rows.filter (fun r => !rowAllNa r)) := by
      rw [mem_keepIdxs]
      refine ⟨hjcw, List.any_eq_true.mpr ⟨r0, hr0m, ?_⟩⟩
      rw [hcell, hcn]
      rfl
    rw [← hr0]
    unfold rowAllNa
    rw [List.all_eq_false]
    refine ⟨cleanCell (cellAt r0 jc), ?_, ?_⟩
    · rw [List.mem_map]
      refine ⟨cellAt r0 jc, ?_, rfl⟩
      unfold selectIdxs
      exact List.mem_map_of_mem _ hjin
    · rw [isNa_cleanCell, hcell, hcn]
      decide
  · -- every kept column still has a non-NaN cell
    intro j hj
    have hjlen : j < (keepIdxs cols.length
        (rows.filter (fun r => !rowAllNa r))).length := by
      simpa [selectLbls] using hj
    have hjmem : (keepIdxs cols.length (rows.filter (fun r => !rowAllNa r)))[j]
        ∈ keepIdxs cols.length (rows.filter (fun r => !rowAllNa r)) :=
      List.getElem_mem hjlen
    rw [mem_keepIdxs] at hjmem
    rcases List.any_eq_true.mp hjmem.2 with ⟨r0, hr0m, hr0c⟩
    rw [List.any_eq_true]
    refine ⟨(selectIdxs (keepIdxs cols.length
      (rows.filter (fun r => !rowAllNa r))) r0).map cleanCell,
      List.mem_map_of_mem _ hr0m, ?_⟩
    have hsel : cellAt ((selectIdxs (keepIdxs cols.length
        (rows.filter (fun r => !rowAllNa r))) r0).map cleanCell) j =
        cleanCell (cellAt r0 (keepIdxs cols.length
          (rows.filter (fun r => !rowAllNa r)))[j]) := by
      unfold selectIdxs
      rw [List.map_map]
      exact cellAt_ks_map _ _ j hjlen
    rw [hsel, isNa_cleanCell]
    exact hr0c
  · -- every surviving cell is already clean
    intro r hr c hc
    rw [List.mem_map] at hr
    obtain ⟨r0, _, hr0⟩ := hr
    rw [← hr0] at hc
    rw [List.mem_map] at hc
    obtain ⟨c0, _, hc0⟩ := hc
    rw [← hc0]
    exact cleanCell_idem c0

/-- C8.  `FragmentCleaner` is idempotent: cleaning the output of
`clean_table` changes nothing, for every rectangular fragment (pandas
frames are always rectangular). -/
theorem C8_clean_table_idempotent (df : DF)
    (hrect : ∀ r ∈ df.rows, r.length = df.cols.length) :
    clean_table (clean_table df) = clean_table df := by
  obtain ⟨h1, h2, h3, h4⟩ := clean_table_output_rect df hrect
  exact clean_table_fixed (clean_table df) h1 h2 h3 h4

/-- C8 witness: idempotence at a concrete fragment containing a `None`
cell, a cell with surrounding whitespace, and an embedded newline. -/
theorem C8_clean_table_idempotent_witness :
    clean_table (clean_table (DF.mk ["0", "1"]
      [[PyVal.str " a\nb ", PyVal.na], [PyVal.na, PyVal.str "c"]])) =
    clean_table (DF.mk ["0", "1"]
      [[PyVal.str " a\nb ", PyVal.na], [PyVal.na, PyVal.str "c"]]) :=
  C8_clean_table_idempotent _ (by decide)

/-! ### Generic helpers for the post-processing stage proofs -/

theorem except_bind_ok {ε α β : Type} (x : Except ε α) (f : α → Except ε β) (b : β) :
    (x >>= f) = Except.ok b ↔ ∃ a, x = Except.ok a ∧ f a = Except.ok b := by
  cases x with
  | error e => simp [Bind.bind, Except.bind]
  | ok a => simp [Bind.bind, Except.bind]

theorem zipWith_map_self {α β γ : Type} (f : α → β → γ) (g : α → β) (l : List α) :
    List.zipWith f l (l.map g) = l.map (fun a => f a (g a)) := by
  induction l with
  | nil => rfl
  | cons a t ih => simp [ih]

theorem getD_range_map_lt {α : Type} (F : Nat → α) (w j : Nat) (d : α) (h : j < w) :
    ((List.range w).map F).getD j d = F j := by
  rw [List.getD_eq_getElem?_getD, List.getElem?_map]
  have hj : j < (List.range w).length := by simpa using h
  rw [List.getElem?_eq_getElem hj]
  simp

theorem mem_labelIdxs (cs : List String) (l : String) (j : Nat) :
    j ∈ labelIdxs cs l ↔ (j < cs.length ∧ cs.getD j "" = l) := by
  simp [labelIdxs, List.mem_filter, List.mem_range]

theorem labelIdxs_append_ne (cs : List String) (a l : String) (h : l ≠ a) :
    labelIdxs (cs ++ [a]) l = labelIdxs cs l := by
  unfold labelIdxs
  rw [List.length_append, List.length_singleton, List.range_succ, List.filter_append]
  have h1 : (List.range cs.length).filter
      (fun j => decide ((cs ++ [a]).getD j "" = l)) =
      (List.range cs.length).filter (fun j => decide (cs.getD j "" = l)) := by
    apply List.filter_congr
    intro j hj
    have hjl : j < cs.length := List.mem_range.mp hj
    rw [List.getD_append cs [a] "" j hjl]
  have h2 : ([cs.length].filter
      (fun j => decide ((cs ++ [a]).getD j "" = l))) = [] := by
    have hv : (cs ++ [a]).getD cs.length "" = a := by
      rw [List.getD_append_right cs [a] "" cs.length (le_refl cs.length)]
      simp
    simp [hv, Ne.symm h]
  rw [h1, h2, List.append_nil]

theorem labelIdxs_getD (cs : List String) (l : String) (j : Nat)
    (h : j ∈ labelIdxs cs l) : j < cs.length ∧ cs.getD j "" = l :=
  (mem_labelIdxs cs l j).mp h

theorem numTokVal_nonneg (l : List Char) : 0 ≤ numTokVal l := by
  unfold numTokVal
  split
  · positivity
  · positivity

/-- `normCell` always yields a non-negative number. -/
theorem normCell_nonneg (v : PyVal) : ∃ q : ℚ, normCell v = PyVal.num q ∧ 0 ≤ q := by
  unfold normCell
  cases h : firstNumTok (pyStr v).toList with
  | none => exact ⟨0, rfl, le_refl 0⟩
  | some t => exact ⟨numTokVal t, rfl, numTokVal_nonneg t⟩

theorem contains_eq_true_iff {l : List Nat} {a : Nat} : l.contains a = true ↔ a ∈ l := by
  show List.elem a l = true ↔ a ∈ l
  exact List.elem_iff

theorem cellAt_append_lt (r1 r2 : List PyVal) (j : Nat) (h : j < r1.length) :
    cellAt (r1 ++ r2) j = cellAt r1 j := by
  unfold cellAt
  exact List.getD_append r1 r2 PyVal.na j h

theorem cellAt_pad (r : List PyVal) (w j : Nat) (h : j < w) :
    cellAt ((List.range w).map (fun i => cellAt r i)) j = cellAt r j :=
  getD_range_map_lt (fun i => cellAt r i) w j PyVal.na h

/-! ### setCol lemmas -/

theorem setCol_cols_cases (d : DF) (l : String) (vals : List PyVal) :
    (setCol d l vals).cols = d.cols ++ [l] ∨ (setCol d l vals).cols = d.cols := by
  unfold setCol
  cases h : labelIdxs d.cols l with
  | nil => left; rfl
  | cons k ks => right; rfl

theorem setCol_label_stable (d : DF) (l l2 : String) (vals : List PyVal) (h : l2 ≠ l) :
    labelIdxs (setCol d l vals).cols l2 = labelIdxs d.cols l2 := by
  rcases setCol_cols_cases d l vals with hcase | hcase
  · rw [hcase]
    exact labelIdxs_append_ne d.cols l l2 h
  · rw [hcase]

theorem setCol_label_present (d : DF) (l : String) (vals : List PyVal) :
    labelIdxs (setCol d l vals).cols l ≠ [] := by
  unfold setCol
  cases h : labelIdxs d.cols l with
  | nil =>
    simp only
    intro hcontra
    have hm : d.cols.length ∈ labelIdxs (d.cols ++ [l]) l := by
      rw [mem_labelIdxs]
      refine ⟨by simp, ?_⟩
      rw [List.getD_append_right d.cols [l] "" d.cols.length (le_refl _)]
      simp
    rw [hcontra] at hm
    exact absurd hm (List.not_mem_nil _)
  | cons k ks =>
    simp only
    rw [h]
    simp

/-- A `df[lbl] = df.apply(g)`-style assignment: every output row comes from
an input row, with every cell under a different label preserved. -/
theorem setCol_rows_shape (d : DF) (l : String) (g : List PyVal → PyVal) :
    ∀ r2 ∈ (setCol d l (d.rows.map g)).rows, ∃ r ∈ d.rows,
      ∀ j, j < d.cols.length → d.cols.getD j "" ≠ l → cellAt r2 j = cellAt r j := by
  unfold setCol
  cases h : labelIdxs d.cols l with
  | nil =>
    intro r2 hr2
    simp only at hr2
    rw [zipWith_map_self, List.mem_map] at hr2
    obtain ⟨r, hrm, hreq⟩ := hr2
    refine ⟨r, hrm, ?_⟩
    intro j hj _
    rw [← hreq]
    rw [cellAt_append_lt _ _ j (by simpa using hj)]
    exact cellAt_pad r d.cols.length j hj
  | cons k ks =>
    intro r2 hr2
    simp only at hr2
    rw [zipWith_map_self, List.mem_map] at hr2
    obtain ⟨r, hrm, hreq⟩ := hr2
    refine ⟨r, hrm, ?_⟩
    intro j hj hlne
    rw [← hreq]
    have hstep : cellAt ((List.range d.cols.length).map
        (fun i => if (k :: ks).contains i then g r else cellAt r i)) j =
        (if (k :: ks).contains j then g r else cellAt r j) :=
      getD_range_map_lt _ d.cols.length j PyVal.na hj
    rw [hstep]
    have hnotin : j ∉ (k :: ks) := by
      intro hin
      rw [← h] at hin
      exact hlne ((mem_labelIdxs d.cols l j).mp hin).2
    have hcont : (k :: ks).contains j = false := by
      cases hq : (k :: ks).contains j with
      | false => rfl
      | true => exact absurd (contains_eq_true_iff.mp hq) hnotin
    rw [hcont]
    simp

/-! ### dedupSeen lemmas -/

theorem dedupSeen_subset {κ : Type} [DecidableEq κ] (k : List PyVal → κ) :
    ∀ (seen : List κ) (l : List (List PyVal)) (r : List PyVal),
      r ∈ dedupSeen k seen l → r ∈ l := by
  intro seen l
  induction l generalizing seen with
  | nil =>
    intro r hr
    exact absurd hr (List.not_mem_nil r)
  | cons x t ih =>
    intro r hr
    unfold dedupSeen at hr
    by_cases hc : (seen.any (fun y => decide (y = k x))) = true
    · rw [if_pos hc] at hr
      exact List.mem_cons_of_mem x (ih seen r hr)
    · rw [if_neg hc] at hr
      rcases List.mem_cons.mp hr with heq | hmem
      · rw [heq]
        exact List.mem_cons_self x t
      · exact List.mem_cons_of_mem x (ih _ r hmem)

theorem dedupSeen_not_seen {κ : Type} [DecidableEq κ] (k : List PyVal → κ) :
    ∀ (seen : List κ) (l : List (List PyVal)) (r : List PyVal),
      r ∈ dedupSeen k seen l → k r ∉ seen := by
  intro seen l
  induction l generalizing seen with
  | nil =>
    intro r hr
    exact absurd hr (List.not_mem_nil r)
  | cons x t ih =>
    intro r hr
    unfold dedupSeen at hr
    by_cases hc : (seen.any (fun y => decide (y = k x))) = true
    · rw [if_pos hc] at hr
      exact ih seen r hr
    · rw [if_neg hc] at hr
      rcases List.mem_cons.mp hr with heq | hmem
      · intro hin
        rw [heq] at hin
        exact hc (List.any_eq_true.mpr ⟨k x, hin, by simp⟩)
      · intro hin
        exact ih (k x :: seen) r hmem (List.mem_cons_of_mem _ hin)

theorem dedupSeen_pairwise {κ : Type} [DecidableEq κ] (k : List PyVal → κ) :
    ∀ (seen : List κ) (l : List (List PyVal)),
      (dedupSeen k seen l).Pairwise (fun a b => k a ≠ k b) := by
  intro seen l
  induction l generalizing seen with
  | nil => exact List.Pairwise.nil
  | cons x t ih =>
    unfold dedupSeen
    by_cases hc : (seen.any (fun y => decide (y = k x))) = true
    · rw [if_pos hc]
      exact ih seen
    · rw [if_neg hc]
      refine List.Pairwise.cons ?_ (ih (k x :: seen))
      intro b hb
      have := dedupSeen_not_seen k (k x :: seen) t b hb
      intro heq
      exact this (heq ▸ List.mem_cons_self (k x) seen)

theorem dedupSeen_keeps_first {κ : Type} [DecidableEq κ] (k : List PyVal → κ) :
    ∀ (seen : List κ) (l : List (List PyVal)) (key : κ) (r' : List PyVal),
      (seen.any (fun y => decide (y = key))) = false →
      l.find? (fun x => decide (k x = key)) = some r' →
      r' ∈ dedupSeen k seen l := by
  intro seen l
  induction l generalizing seen with
  | nil =>
    intro key r' _ hf
    simp [List.find?] at hf
  | cons x t ih =>
    intro key r' hseen hf
    unfold dedupSeen
    rw [List.find?_cons] at hf
    by_cases hx : (decide (k x = key)) = true
    · simp only [hx] at hf
      have hxr : x = r' := by injection hf
      have hkx : k x = key := of_decide_eq_true hx
      have hc : (seen.any (fun y => decide (y = k x))) = false := by
        rw [hkx]
        exact hseen
      rw [if_neg (by rw [hc]; exact Bool.false_ne_true)]
      rw [hxr]
      exact List.mem_cons_self r' _
    · have hfalse : (decide (k x = key)) = false := by simpa using hx
      simp only [hfalse] at hf
      have hkx : k x ≠ key := of_decide_eq_false hfalse
      by_cases hc : (seen.any (fun y => decide (y = k x))) = true
      · rw [if_pos hc]
        exact ih seen key r' hseen hf
      · rw [if_neg hc]
        refine List.mem_cons_of_mem x (ih (k x :: seen) key r' ?_ hf)
        rw [List.any_cons, hfalse]
        simpa using hseen

/-! ### Stage inversion lemmas for post_process_data -/

theorem getColUnique_ok (d : DF) (l : String) (j : Nat)
    (h : getColUnique d l = Except.ok j) : labelIdxs d.cols l = [j] := by
  unfold getColUnique at h
  cases hq : labelIdxs d.cols l with
  | nil =>
    rw [hq] at h
    exact absurd h (by simp)
  | cons a t =>
    cases t with
    | nil =>
      rw [hq] at h
      injection h with h2
      rw [h2]
    | cons b u =>
      rw [hq] at h
      exact absurd h (by simp)

theorem stageProtein_inv (d d2 : DF) (h : stageProtein d = Except.ok d2) :
    d2.cols = d.cols ∧ ∀ r ∈ d2.rows, r ∈ d.rows := by
  unfold stageProtein at h
  rw [except_bind_ok] at h
  obtain ⟨j, _, hok⟩ := h
  injection hok with h2
  rw [← h2]
  exact ⟨rfl, fun r hr => (List.mem_filter.mp hr).1⟩

theorem dropnaName_inv (d d2 : DF) (h : dropnaName d = Except.ok d2) :
    d2.cols = d.cols ∧ ∀ r ∈ d2.rows, r ∈ d.rows := by
  unfold dropnaName at h
  cases hq : labelIdxs d.cols "food_name_english" with
  | nil =>
    rw [hq] at h
    exact absurd h (by simp)
  | cons a t =>
    rw [hq] at h
    injection h with h2
    rw [← h2]
    exact ⟨rfl, fun r hr => (List.mem_filter.mp hr).1⟩

theorem lenFilter_inv (d d2 : DF) (h : lenFilter d = Except.ok d2) :
    ∃ nj, labelIdxs d.cols "food_name_english" = [nj] ∧ d2.cols = d.cols ∧
      d2.rows = d.rows.filter (fun r => nameLen2 (cellAt r nj)) := by
  unfold lenFilter at h
  rw [except_bind_ok] at h
  obtain ⟨j, hj, hok⟩ := h
  injection hok with h2
  exact ⟨j, getColUnique_ok d _ j hj, by rw [← h2], by rw [← h2]⟩

theorem stageCategory_inv (d d2 : DF) (h : stageCategory d = Except.ok d2) :
    ∃ cj, labelIdxs d.cols "food_code" = [cj] ∧
      d2 = setCol d "category" (d.rows.map (fun r => categoryOf (cellAt r cj))) := by
  unfold stageCategory at h
  rw [except_bind_ok] at h
  obtain ⟨j, hj, hok⟩ := h
  injection hok with h2
  exact ⟨j, getColUnique_ok d _ j hj, h2.symm⟩

theorem dedupStage_inv (d d2 : DF) (h : dedupStage d = Except.ok d2) :
    labelIdxs d.cols "food_code" ≠ [] ∧ labelIdxs d.cols "food_name_english" ≠ [] ∧
      d2.cols = d.cols ∧
      d2.rows = dedupSeen (dedupKey (labelIdxs d.cols "food_code")
        (labelIdxs d.cols "food_name_english")) [] d.rows := by
  unfold dedupStage at h
  cases hq1 : labelIdxs d.cols "food_code" with
  | nil =>
    rw [hq1] at h
    exact absurd h (by simp)
  | cons a t =>
    cases hq2 : labelIdxs d.cols "food_name_english" with
    | nil =>
      rw [hq1, hq2] at h
      exact absurd h (by simp)
    | cons b u =>
      rw [hq1, hq2] at h
      injection h with h2
      refine ⟨by simp, by simp, ?_, ?_⟩
      · rw [← h2]
      · rw [← h2]

theorem stageNutrOne_cols (d d2 : DF) (l0 : String)
    (h : stageNutrOne d l0 = Except.ok d2) : d2.cols = d.cols := by
  unfold stageNutrOne at h
  cases hq : labelIdxs d.cols l0 with
  | nil =>
    rw [hq] at h
    injection h with h2
    rw [← h2]
  | cons a t =>
    cases t with
    | nil =>
      rw [hq] at h
      injection h with h2
      rw [← h2]
      rfl
    | cons b u =>
      rw [hq] at h
      exact absurd h (by simp)

theorem stageNutrOne_estab (d d2 : DF) (l0 : String)
    (h : stageNutrOne d l0 = Except.ok d2) :
    ∀ j ∈ labelIdxs d2.cols l0, ∀ r2 ∈ d2.rows,
      ∃ q, cellAt r2 j = PyVal.num q ∧ 0 ≤ q := by
  unfold stageNutrOne at h
  cases hq : labelIdxs d.cols l0 with
  | nil =>
    rw [hq] at h
    injection h with h2
    intro j hj
    rw [← h2] at hj
    rw [hq] at hj
    exact absurd hj (List.not_mem_nil j)
  | cons a t =>
    cases t with
    | cons b u =>
      rw [hq] at h
      exact absurd h (by simp)
    | nil =>
      rw [hq] at h
      injection h with h2
      intro j hj r2 hr2
      rw [← h2] at hj hr2
      have hlbl : labelIdxs (normColAt a d).cols l0 = [a] := by
        show labelIdxs d.cols l0 = [a]
        exact hq
      rw [hlbl] at hj
      have hja : j = a := by simpa using hj
      subst hja
      have hjmem : j ∈ labelIdxs d.cols l0 := by
        rw [hq]
        exact List.mem_cons_self j []
      have hjw : j < d.cols.length := (labelIdxs_getD _ _ _ hjmem).1
      unfold normColAt at hr2
      simp only at hr2
      rw [List.mem_map] at hr2
      obtain ⟨r, hrm, hreq⟩ := hr2
      rw [← hreq]
      have hcell : cellAt ((List.range d.cols.length).map
          (fun i => if i = j then normCell (cellAt r i) else cellAt r i)) j =
          (if j = j then normCell (cellAt r j) else cellAt r j) :=
        getD_range_map_lt _ d.cols.length j PyVal.na hjw
      rw [hcell, if_pos rfl]
      exact normCell_nonneg _

theorem stageNutrOne_preserve (d d2 : DF) (l0 : String) (j : Nat)
    (h : stageNutrOne d l0 = Except.ok d2) (hjw : j < d.cols.length)
    (hP : ∀ r ∈ d.rows, ∃ q, cellAt r j = PyVal.num q ∧ 0 ≤ q) :
    ∀ r2 ∈ d2.rows, ∃ q, cellAt r2 j = PyVal.num q ∧ 0 ≤ q := by
  unfold stageNutrOne at h
  cases hq : labelIdxs d.cols l0 with
  | nil =>
    rw [hq] at h
    injection h with h2
    rw [← h2]
    exact hP
  | cons a t =>
    cases t with
    | cons b u =>
      rw [hq] at h
      exact absurd h (by simp)
    | nil =>
      rw [hq] at h
      injection h with h2
      intro r2 hr2
      rw [← h2] at hr2
      unfold normColAt at hr2
      simp only at hr2
      rw [List.mem_map] at hr2
      obtain ⟨r, hrm, hreq⟩ := hr2
      rw [← hreq]
      have hcell : cellAt ((List.range d.cols.length).map
          (fun i => if i = a then normCell (cellAt r i) else cellAt r i)) j =
          (if j = a then normCell (cellAt r j) else cellAt r j) :=
        getD_range_map_lt _ d.cols.length j PyVal.na hjw
      rw [hcell]
      by_cases hja : j = a
      · rw [if_pos hja]
        exact normCell_nonneg _
      · rw [if_neg hja]
        exact hP r hrm

theorem foldNutr_cols : ∀ (ls : List String) (d d2 : DF),
    ls.foldlM stageNutrOne d = Except.ok d2 → d2.cols = d.cols := by
  intro ls
  induction ls with
  | nil =>
    intro d d2 h
    injection h with h2
    rw [h2]
  | cons l0 ls ih =>
    intro d d2 h
    rw [List.foldlM_cons, except_bind_ok] at h
    obtain ⟨d1, h1, h2⟩ := h
    rw [ih d1 d2 h2, stageNutrOne_cols d d1 l0 h1]

theorem foldNutr_preserve : ∀ (ls : List String) (d d2 : DF) (j : Nat),
    ls.foldlM stageNutrOne d = Except.ok d2 → j < d.cols.length →
    (∀ r ∈ d.rows, ∃ q, cellAt r j = PyVal.num q ∧ 0 ≤ q) →
    ∀ r2 ∈ d2.rows, ∃ q, cellAt r2 j = PyVal.num q ∧ 0 ≤ q := by
  intro ls
  induction ls with
  | nil =>
    intro d d2 j h hjw hP
    injection h with h2
    rw [← h2]
    exact hP
  | cons l0 ls ih =>
    intro d d2 j h hjw hP
    rw [List.foldlM_cons, except_bind_ok] at h
    obtain ⟨d1, h1, h2⟩ := h
    have hcols : d1.cols = d.cols := stageNutrOne_cols d d1 l0 h1
    exact ih d1 d2 j h2 (by rw [hcols]; exact hjw)
      (stageNutrOne_preserve d d1 l0 j h1 hjw hP)

theorem foldNutr_estab : ∀ (ls : List String) (d d2 : DF),
    ls.foldlM stageNutrOne d = Except.ok d2 →
    ∀ l ∈ ls, ∀ j ∈ labelIdxs d2.cols l, ∀ r2 ∈ d2.rows,
      ∃ q, cellAt r2 j = PyVal.num q ∧ 0 ≤ q := by
  intro ls
  induction ls with
  | nil =>
    intro d d2 _ l hl
    exact absurd hl (List.not_mem_nil l)
  | cons l0 ls ih =>
    intro d d2 h l hl
    rw [List.foldlM_cons, except_bind_ok] at h
    obtain ⟨d1, h1, h2⟩ := h
    rcases List.mem_cons.mp hl with heq | hmem
    · subst heq
      intro j hj r2 hr2
      have hcols : d2.cols = d1.cols := foldNutr_cols ls d1 d2 h2
      rw [hcols] at hj
      have hjw : j < d1.cols.length := (labelIdxs_getD _ _ _ hj).1
      exact foldNutr_preserve ls d1 d2 j h2 hjw
        (stageNutrOne_estab d d1 l h1 j hj) r2 hr2
    · exact ih d1 d2 h2 l hmem

/-- The nutrient loop leaves every present canonical nutrient column
holding non-negative numbers. -/
theorem stageNutrients_estab (d d2 : DF) (h : stageNutrients d = Except.ok d2) :
    ∀ l ∈ nutrientCols, ∀ j ∈ labelIdxs d2.cols l, ∀ r2 ∈ d2.rows,
      ∃ q, cellAt r2 j = PyVal.num q ∧ 0 ≤ q :=
  foldNutr_estab nutrientCols d d2 h

/-- Appending the `category` column preserves the nutrient-column
property. -/
theorem stageCategory_nutrOk (d3 d4 : DF) (h : stageCategory d3 = Except.ok d4)
    (hok : ∀ l ∈ nutrientCols, ∀ j ∈ labelIdxs d3.cols l, ∀ r ∈ d3.rows,
      ∃ q, cellAt r j = PyVal.num q ∧ 0 ≤ q) :
    ∀ l ∈ nutrientCols, ∀ j ∈ labelIdxs d4.cols l, ∀ r2 ∈ d4.rows,
      ∃ q, cellAt r2 j = PyVal.num q ∧ 0 ≤ q := by
  obtain ⟨cj, _, hd4⟩ := stageCategory_inv d3 d4 h
  intro l hl j hj r2 hr2
  have hlne : l ≠ "category" := by
    have hall : ∀ x ∈ nutrientCols, x ≠ "category" := by decide
    exact hall l hl
  rw [hd4] at hj hr2
  rw [setCol_label_stable d3 "category" l _ hlne] at hj
  have hjf := labelIdxs_getD _ _ _ hj
  obtain ⟨r, hrm, hpres⟩ := setCol_rows_shape d3 "category" _ r2 hr2
  rw [hpres j hjf.1 (by rw [hjf.2]; exact hlne)]
  exact hok l hl j hj r hrm

/-! ### Projection lemmas -/

theorem keep_shape (d : DF) (cj nj : Nat)
    (hc : labelIdxs d.cols "food_code" = [cj])
    (hn : labelIdxs d.cols "food_name_english" = [nj])
    (hcat : labelIdxs d.cols "category" ≠ []) :
    finalColsList.filter (fun l => !(labelIdxs d.cols l).isEmpty) =
      "food_code" :: "food_name_english" :: "category" ::
        (nutrientCols.filter (fun l => !(labelIdxs d.cols l).isEmpty)) := by
  have h1 : (!(labelIdxs d.cols "food_code").isEmpty) = true := by
    rw [hc]
    rfl
  have h2 : (!(labelIdxs d.cols "food_name_english").isEmpty) = true := by
    rw [hn]
    rfl
  have h3 : (!(labelIdxs d.cols "category").isEmpty) = true := by
    cases hq : labelIdxs d.cols "category" with
    | nil => exact absurd hq hcat
    | cons a t => rfl
  show List.filter _
    ("food_code" :: "food_name_english" :: "category" :: nutrientCols) = _
  rw [List.filter_cons, h1, if_pos rfl]
  rw [List.filter_cons, h2, if_pos rfl]
  rw [List.filter_cons, h3, if_pos rfl]

theorem projectFinal_cells (d : DF) (cj nj : Nat)
    (hc : labelIdxs d.cols "food_code" = [cj])
    (hn : labelIdxs d.cols "food_name_english" = [nj])
    (hcat : labelIdxs d.cols "category" ≠ []) :
    (projectFinal d).rows = d.rows.map (fun r =>
      cellAt r cj :: cellAt r nj :: cellAt r (firstLblIdx d.cols "category") ::
        (nutrientCols.filter (fun l => !(labelIdxs d.cols l).isEmpty)).map
          (fun l => cellAt r (firstLblIdx d.cols l))) := by
  unfold projectFinal
  simp only
  rw [keep_shape d cj nj hc hn hcat]
  apply List.map_congr_left
  intro r _
  rw [List.map_cons, List.map_cons, List.map_cons]
  have e1 : firstLblIdx d.cols "food_code" = cj := by
    unfold firstLblIdx
    rw [hc]
    rfl
  have e2 : firstLblIdx d.cols "food_name_english" = nj := by
    unfold firstLblIdx
    rw [hn]
    rfl
  rw [e1, e2]

/-! ### C2: the final-dataset invariant -/

theorem nameLen2_inv (v : PyVal) (h : nameLen2 v = true) :
    ∃ s, v = PyVal.str s ∧ 2 < s.length ∧ s ≠ "" := by
  cases v with
  | str s =>
    refine ⟨s, rfl, ?_, ?_⟩
    · unfold nameLen2 at h
      exact of_decide_eq_true h
    · intro he
      subst he
      unfold nameLen2 at h
      exact absurd (of_decide_eq_true h) (by decide)
  | na => simp [nameLen2] at h
  | num q => simp [nameLen2] at h

theorem post_process_inv (df out : DF) (h : post_process_data df = Except.ok out) :
    ∃ d1 d2 d3 d4 d5 d6 d7,
      stageAssign df = Except.ok d1 ∧ stageProtein d1 = Except.ok d2 ∧
      stageNutrients d2 = Except.ok d3 ∧ stageCategory d3 = Except.ok d4 ∧
      dropnaName d4 = Except.ok d5 ∧ lenFilter d5 = Except.ok d6 ∧
      dedupStage d6 = Except.ok d7 ∧ out = projectFinal d7 := by
  unfold post_process_data at h
  rw [except_bind_ok] at h
  obtain ⟨d1, h1, h⟩ := h
  rw [except_bind_ok] at h
  obtain ⟨d2, h2, h⟩ := h
  rw [except_bind_ok] at h
  obtain ⟨d3, h3, h⟩ := h
  rw [except_bind_ok] at h
  obtain ⟨d4, h4, h⟩ := h
  rw [except_bind_ok] at h
  obtain ⟨d5, h5, h⟩ := h
  rw [except_bind_ok] at h
  obtain ⟨d6, h6, h⟩ := h
  rw [except_bind_ok] at h
  obtain ⟨d7, h7, h⟩ := h
  injection h with h8
  exact ⟨d1, d2, d3, d4, d5, d6, d7, h1, h2, h3, h4, h5, h6, h7, h8.symm⟩

/-- Positions of the identity columns in the frame reaching deduplication:
`food_code` and `food_name_english` are single columns, `category` is
present, and every surviving row passed the name-length filter. -/
theorem pipeline_position_facts (d3 d4 d5 d6 d7 : DF)
    (h4 : stageCategory d3 = Except.ok d4)
    (h5 : dropnaName d4 = Except.ok d5)
    (h6 : lenFilter d5 = Except.ok d6)
    (h7 : dedupStage d6 = Except.ok d7) :
    ∃ cj nj,
      labelIdxs d7.cols "food_code" = [cj] ∧
      labelIdxs d7.cols "food_name_english" = [nj] ∧
      labelIdxs d7.cols "category" ≠ [] ∧
      (∀ r ∈ d6.rows, nameLen2 (cellAt r nj) = true) ∧
      d7.rows = dedupSeen (dedupKey [cj] [nj]) [] d6.rows := by
  obtain ⟨cj, hc3, hd4⟩ := stageCategory_inv d3 d4 h4
  obtain ⟨hc5cols, _⟩ := dropnaName_inv d4 d5 h5
  obtain ⟨nj, hn5, h6cols, h6rows⟩ := lenFilter_inv d5 d6 h6
  obtain ⟨_, _, h7cols, h7rows⟩ := dedupStage_inv d6 d7 h7
  have hc4 : labelIdxs d4.cols "food_code" = [cj] := by
    rw [hd4, setCol_label_stable d3 "category" "food_code" _ (by decide)]
    exact hc3
  have hcat4 : labelIdxs d4.cols "category" ≠ [] := by
    rw [hd4]
    exact setCol_label_present d3 "category" _
  have e1 : labelIdxs d6.cols "food_code" = [cj] := by
    rw [h6cols, hc5cols]
    exact hc4
  have e2 : labelIdxs d6.cols "food_name_english" = [nj] := by
    rw [h6cols]
    exact hn5
  refine ⟨cj, nj, ?_, ?_, ?_, ?_, ?_⟩
  · rw [h7cols]
    exact e1
  · rw [h7cols]
    exact e2
  · rw [h7cols, h6cols, hc5cols]
    exact hcat4
  · intro r hr
    rw [h6rows] at hr
    simpa using (List.mem_filter.mp hr).2
  · rw [h7rows, e1, e2]

/-- C2, amended.  Every record in a dataset produced by `post_process_data`
has a `food_name_english` that is a string of length greater than 2 (hence
non-empty), and the pair (food_code, food_name_english) is pairwise
distinct, the first occurrence being kept by deduplication; but `food_code`
is NOT guaranteed non-empty — the pipeline never filters on it. -/
theorem C2_final_dataset_invariant :
    (∀ df out : DF, post_process_data df = Except.ok out →
      (∀ r ∈ out.rows, ∃ s, cellAt r 1 = PyVal.str s ∧ 2 < s.length ∧ s ≠ "") ∧
      out.rows.Pairwise (fun a b =>
        cellAt a 0 ≠ cellAt b 0 ∨ cellAt a 1 ≠ cellAt b 1)) ∧
    (∀ (k : List PyVal → List PyVal × List PyVal) (l : List (List PyVal))
        (key : List PyVal × List PyVal) (r' : List PyVal),
      l.find? (fun x => decide (k x = key)) = some r' →
      r' ∈ dedupSeen k [] l) := by
  constructor
  · intro df out h
    obtain ⟨d1, d2, d3, d4, d5, d6, d7, h1, h2, h3, h4, h5, h6, h7, hout⟩ :=
      post_process_inv df out h
    obtain ⟨cj, nj, hc7, hn7, hcat7, hname6, hdedup⟩ :=
      pipeline_position_facts d3 d4 d5 d6 d7 h4 h5 h6 h7
    have hproj := projectFinal_cells d7 cj nj hc7 hn7 hcat7
    constructor
    · intro r hr
      rw [hout, hproj, List.mem_map] at hr
      obtain ⟨r7, hr7, hreq⟩ := hr
      have hr6 : r7 ∈ d6.rows := by
        rw [hdedup] at hr7
        exact dedupSeen_subset _ [] d6.rows r7 hr7
      obtain ⟨s, hs, hlen, hne⟩ := nameLen2_inv _ (hname6 r7 hr6)
      refine ⟨s, ?_, hlen, hne⟩
      rw [← hreq]
      show cellAt r7 nj = PyVal.str s
      exact hs
    · rw [hout, hproj]
      have hpw : d7.rows.Pairwise
          (fun a b => dedupKey [cj] [nj] a ≠ dedupKey [cj] [nj] b) := by
        rw [hdedup]
        exact dedupSeen_pairwise _ [] d6.rows
      refine List.Pairwise.map _ ?_ hpw
      intro a b hab
      show cellAt a cj ≠ cellAt b cj ∨ cellAt a nj ≠ cellAt b nj
      by_contra hcon
      push_neg at hcon
      apply hab
      unfold dedupKey
      simp only [List.map_cons, List.map_nil]
      rw [hcon.1, hcon.2]
  · intro k l key r' hf
    exact dedupSeen_keeps_first k [] l key r' rfl hf

/-- C2 counterexample: a successful pipeline run whose single final record
has a missing (`NaN`) `food_code`, contradicting the claim that every
record has a non-empty `food_code`.  The header row of `cexMixedDF` routes
the `food_code` label onto a raw data column whose data cell is missing,
and the final cleanup never filters on `food_code`. -/
theorem C2_null_food_code :
    post_process_data cexMixedDF = Except.ok (DF.mk
      ["food_code", "food_name_english", "category", "energy_kcal", "protein_g"]
      [[PyVal.na, PyVal.str "Maize flour", PyVal.str "Uncategorized",
        PyVal.num 360, PyVal.num 8]]) ∧
    cellAt ((DF.mk
      ["food_code", "food_name_english", "category", "energy_kcal", "protein_g"]
      [[PyVal.na, PyVal.str "Maize flour", PyVal.str "Uncategorized",
        PyVal.num 360, PyVal.num 8]]).rows.getD 0 []) 0 = PyVal.na ∧
    PyVal.na ≠ PyVal.str "" := by
  refine ⟨by decide, by decide, by decide⟩

/-- C2 witness: the amended invariant applied to the concrete successful
run on `cexMixedDF`, and the keep-first property of deduplication at a
concrete list. -/
theorem C2_final_dataset_invariant_witness :
    (DF.mk ["food_code", "food_name_english", "category", "energy_kcal", "protein_g"]
      [[PyVal.na, PyVal.str "Maize flour", PyVal.str "Uncategorized",
        PyVal.num 360, PyVal.num 8]]).rows.Pairwise
      (fun a b => cellAt a 0 ≠ cellAt b 0 ∨ cellAt a 1 ≠ cellAt b 1) ∧
    [PyVal.str "x"] ∈ dedupSeen (fun r => (r, r)) []
      [[PyVal.str "x"], [PyVal.str "x"]] := by
  constructor
  · exact (C2_final_dataset_invariant.1 cexMixedDF _ (by decide)).2
  · exact C2_final_dataset_invariant.2 (fun r => (r, r))
      [[PyVal.str "x"], [PyVal.str "x"]] ([PyVal.str "x"], [PyVal.str "x"])
      [PyVal.str "x"] (by decide)

/-! ### C4: nutrient normalization -/

/-- Is the cell a non-negative number?  (Property vocabulary for the
nutrient-column guarantee.) -/
def cellIsNonnegNum : PyVal → Bool
  | .num q => decide (0 ≤ q)
  | _ => false

/-- C4, amended.  The stored nutrient value is the first numeric token of
the cell text and exactly 0 when none exists ("12.5 tr" → 12.5, "tr" → 0,
"*" → 0, "" → 0, "7" → 7); every nutrient value `normCell` produces is a
non-negative number; and in every dataset `post_process_data` returns, all
cells after the three identity columns (i.e. the canonical nutrient
columns that are PRESENT — absent ones are omitted, not filled) are
non-negative numbers. -/
theorem C4_nutrient_normalization :
    normCell (PyVal.str "12.5 tr") = PyVal.num ((25 : ℚ) / 2) ∧
    normCell (PyVal.str "tr") = PyVal.num 0 ∧
    normCell (PyVal.str "*") = PyVal.num 0 ∧
    normCell (PyVal.str "") = PyVal.num 0 ∧
    normCell (PyVal.str "7") = PyVal.num 7 ∧
    (∀ v, ∃ q, normCell v = PyVal.num q ∧ 0 ≤ q) ∧
    (∀ df out : DF, post_process_data df = Except.ok out →
      ∀ r ∈ out.rows, ((r.drop 3).all cellIsNonnegNum) = true) := by
  refine ⟨?_, by decide, by decide, by decide, by decide, normCell_nonneg, ?_⟩
  · show PyVal.num (numTokVal ['1', '2', '.', '5']) = PyVal.num ((25 : ℚ) / 2)
    congr 1
    show (digitsVal ['1', '2'] : ℚ) +
      (digitsVal ['5'] : ℚ) / (10 : ℚ) ^ (['5'] : List Char).length = (25 : ℚ) / 2
    have d1 : digitsVal ['1', '2'] = 12 := by decide
    have d2 : digitsVal ['5'] = 5 := by decide
    rw [d1, d2]
    norm_num
  · intro df out h
    obtain ⟨d1, d2, d3, d4, d5, d6, d7, ha1, ha2, ha3, ha4, ha5, ha6, ha7, hout⟩ :=
      post_process_inv df out h
    obtain ⟨cj, nj, hc7, hn7, hcat7, _, hdedup⟩ :=
      pipeline_position_facts d3 d4 d5 d6 d7 ha4 ha5 ha6 ha7
    have hproj := projectFinal_cells d7 cj nj hc7 hn7 hcat7
    have hnut4 := stageCategory_nutrOk d3 d4 ha4 (stageNutrients_estab d2 d3 ha3)
    obtain ⟨hc5cols, hsub5⟩ := dropnaName_inv d4 d5 ha5
    obtain ⟨nj2, _, h6cols, h6rows⟩ := lenFilter_inv d5 d6 ha6
    obtain ⟨_, _, h7cols, _⟩ := dedupStage_inv d6 d7 ha7
    intro r hr
    rw [hout, hproj, List.mem_map] at hr
    obtain ⟨r7, hr7, hreq⟩ := hr
    have hr6 : r7 ∈ d6.rows := by
      rw [hdedup] at hr7
      exact dedupSeen_subset _ [] d6.rows r7 hr7
    have hr5 : r7 ∈ d5.rows := by
      rw [h6rows] at hr6
      exact (List.mem_filter.mp hr6).1
    have hr4 : r7 ∈ d4.rows := hsub5 r7 hr5
    rw [← hreq]
    show ((nutrientCols.filter (fun l => !(labelIdxs d7.cols l).isEmpty)).map
      (fun l => cellAt r7 (firstLblIdx d7.cols l))).all cellIsNonnegNum = true
    rw [List.all_eq_true]
    intro c hc
    rw [List.mem_map] at hc
    obtain ⟨l, hl, hceq⟩ := hc
    have hlmem : l ∈ nutrientCols := (List.mem_filter.mp hl).1
    have hlp : (!(labelIdxs d7.cols l).isEmpty) = true := (List.mem_filter.mp hl).2
    have hne : labelIdxs d7.cols l ≠ [] := by
      intro hq
      rw [hq] at hlp
      exact absurd hlp (by decide)
    have hjmem : firstLblIdx d7.cols l ∈ labelIdxs d7.cols l := by
      unfold firstLblIdx
      cases hq : labelIdxs d7.cols l with
      | nil => exact absurd hq hne
      | cons a t =>
        show (a :: t).headD 0 ∈ a :: t
        exact List.mem_cons_self a t
    have hcols74 : d7.cols = d4.cols := by
      rw [h7cols, h6cols, hc5cols]
    have hjmem4 : firstLblIdx d7.cols l ∈ labelIdxs d4.cols l := by
      rw [← hcols74]
      exact hjmem
    obtain ⟨q, hcq, hq0⟩ := hnut4 l hlmem _ hjmem4 r7 hr4
    rw [← hceq]
    show cellIsNonnegNum (cellAt r7 (firstLblIdx d7.cols l)) = true
    rw [hcq]
    show decide (0 ≤ q) = true
    exact decide_eq_true hq0

/-- C4 counterexample: a successful pipeline run whose final dataset does
NOT carry all thirteen canonical nutrient columns — only the two that were
present in the extracted data (`energy_kcal`, `protein_g`) survive the
projection; `fat_g` and the other ten are absent, contradicting the claim
that every record carries all thirteen. -/
theorem C4_missing_nutrient_columns :
    post_process_data cexMixedDF = Except.ok (DF.mk
      ["food_code", "food_name_english", "category", "energy_kcal", "protein_g"]
      [[PyVal.na, PyVal.str "Maize flour", PyVal.str "Uncategorized",
        PyVal.num 360, PyVal.num 8]]) ∧
    "fat_g" ∈ nutrientCols ∧
    "fat_g" ∉ (DF.mk
      ["food_code", "food_name_english", "category", "energy_kcal", "protein_g"]
      [[PyVal.na, PyVal.str "Maize flour", PyVal.str "Uncategorized",
        PyVal.num 360, PyVal.num 8]]).cols := by
  refine ⟨by decide, by decide, by decide⟩

/-- C4 witness: the pipeline part of the amended claim applied to the
concrete successful run on `cexMixedDF`: the nutrient cells of its single
record are all non-negative numbers. -/
theorem C4_nutrient_normalization_witness :
    (((DF.mk
      ["food_code", "food_name_english", "category", "energy_kcal", "protein_g"]
      [[PyVal.na, PyVal.str "Maize flour", PyVal.str "Uncategorized",
        PyVal.num 360, PyVal.num 8]]).rows.getD 0 []).drop 3).all
      cellIsNonnegNum = true := by
  have h := C4_nutrient_normalization.2.2.2.2.2.2 cexMixedDF
    (DF.mk ["food_code", "food_name_english", "category", "energy_kcal", "protein_g"]
      [[PyVal.na, PyVal.str "Maize flour", PyVal.str "Uncategorized",
        PyVal.num 360, PyVal.num 8]]) (by decide)
  exact h _ (by decide)

end KFCT
